import Mathlib

/-!
Verification of the cachimbo layer-composition core.

Shallow embedding of the four coordination layers (Request Coalescing,
Stale-While-Revalidate, Tiered, Tagging) and the base dispatch of the
cachimbo caching middleware, together with proofs of the specified
properties. Sources embedded:
  - src/layers/coalescing/index.ts (CoalescingCache)
  - the SWRCache implementation (SWR layer)
  - the TaggingCache implementation (tagging layer)
  - src/layers/tiered/index.ts (TieredCache)
  - src/base/index.ts (BaseCache dispatch)

Conventions of the embedding:
  - Cache keys are `String`, values a type parameter `V`.
  - JavaScript `null` / absence is `Option.none`; fallible results are `Option`.
  - In-process `Map` objects and record objects are association lists with
    overwrite-on-insert semantics (`ainsert`), first-match lookup (`alookup`).
  - Timestamps (`Date.now()` values) are `Nat` milliseconds.
  - Asynchronous execution is embedded as explicit state passing: every
    observable scheduling point of the source (promise creation, await,
    settle, background-task completion) is a separate function on the
    layer state, so interleavings are sequences of these steps.
-/

namespace Cachimbo

/-- First-match lookup in an association list (JS `Map.get` / record index). -/
def alookup {α : Type} : List (String × α) → String → Option α
  | [], _ => none
  | (k1, v1) :: t, k => if k1 = k then some v1 else alookup t k

/-- Overwrite-or-append insertion (JS `Map.set` / record assignment). -/
def ainsert {α : Type} : List (String × α) → String → α → List (String × α)
  | [], k, v => [(k, v)]
  | (k1, v1) :: t, k, v => if k1 = k then (k, v) :: t else (k1, v1) :: ainsert t k v

/-- Removal of a key (JS `Map.delete`). -/
def aerase {α : Type} (l : List (String × α)) (k : String) : List (String × α) :=
  l.filter (fun p => p.1 != k)

@[simp]
theorem alookup_ainsert_self {α : Type} (l : List (String × α)) (k : String) (v : α) :
    alookup (ainsert l k v) k = some v := by
  induction l with
  | nil => simp [ainsert, alookup]
  | cons h t ih =>
    by_cases hk : h.1 = k
    · simp [ainsert, hk, alookup]
    · simp [ainsert, hk, alookup, ih]

theorem alookup_ainsert_ne {α : Type} (l : List (String × α)) (k k1 : String) (v : α)
    (h : k1 ≠ k) : alookup (ainsert l k v) k1 = alookup l k1 := by
  have hne : ¬(k = k1) := fun hh => h hh.symm
  induction l with
  | nil => simp [ainsert, alookup, hne]
  | cons hd t ih =>
    obtain ⟨a, b⟩ := hd
    by_cases hk : a = k
    · subst hk
      simp [ainsert, alookup, hne]
    · simp only [ainsert, hk, if_false, alookup]
      by_cases hk1 : a = k1 <;> simp [hk1, ih]

theorem alookup_append_left {α : Type} {a : List (String × α)} (b : List (String × α))
    {k : String} {v : α} (h : alookup a k = some v) : alookup (a ++ b) k = some v := by
  induction a with
  | nil => simp [alookup] at h
  | cons hd t ih =>
    simp only [alookup, List.cons_append] at *
    by_cases hk : hd.1 = k <;> simp_all

theorem alookup_append_right {α : Type} {a : List (String × α)} (b : List (String × α))
    {k : String} (h : alookup a k = none) : alookup (a ++ b) k = alookup b k := by
  induction a with
  | nil => simp
  | cons hd t ih =>
    simp only [alookup, List.cons_append] at *
    by_cases hk : hd.1 = k <;> simp_all

theorem alookup_eq_none_iff {α : Type} (l : List (String × α)) (k : String) :
    alookup l k = none ↔ ∀ p ∈ l, p.1 ≠ k := by
  induction l with
  | nil => simp [alookup]
  | cons hd t ih =>
    by_cases hk : hd.1 = k <;> simp_all [alookup]

/-! ## Request Coalescing layer (src/layers/coalescing/index.ts)

Per-key model of `CoalescingCache`. The source keeps a
`Map<string, OngoingRequest>`; since keys never interact, the state below
is the projection of that map (and of the counters we observe) onto one
fixed key `k`. A promise is identified by a numeric id; `nextId` supplies
fresh ids, `calls` counts invocations of the underlying cache
(`this.cache.get` / `this.cache.getOrLoad`) for the key. -/

/-- The `type` field of the source `OngoingRequest` record
(the string `get` or `getOrLoad`). -/
inductive ReqType where
  | get
  | getOrLoad
deriving DecidableEq, Repr

/-- Per-key coalescing state for the promise-identity model of
`CoalescingCache.get`: the ongoing-request record (promise id, if present),
a fresh-id supply, and the count of underlying calls made for this key. -/
structure CoalGetState where
  ongoing : Option Nat
  nextId : Nat
  calls : Nat
deriving DecidableEq, Repr

/-- `CoalescingCache.get`, the synchronous first phase (everything before the
returned promise settles): if an ongoing-request record exists, return its
promise and do not touch the underlying cache; otherwise invoke the
underlying `get` (one new call), register the record, and return the new
promise. Returns (state, promise id handed to the caller). -/
def coalGetStart (s : CoalGetState) : CoalGetState × Nat :=
  match s.ongoing with
  | some p => (s, p)
  | none => ({ ongoing := some s.nextId, nextId := s.nextId + 1, calls := s.calls + 1 }, s.nextId)

/-- `CoalescingCache.getOrLoad`, the synchronous first phase, in the case an
ongoing record exists: the method merely awaits the record (no underlying
call); with no record it delegates one `getOrLoad` to the underlying cache
and registers the record. -/
def coalGOLStart (s : CoalGetState) : CoalGetState × Nat :=
  match s.ongoing with
  | some p => (s, p)
  | none => ({ ongoing := some s.nextId, nextId := s.nextId + 1, calls := s.calls + 1 }, s.nextId)

/-- Settling of the pending underlying call: the `.finally` handler of the
source deletes the record whether the promise fulfilled or rejected; the
`success` flag is therefore ignored. -/
def coalSettle (s : CoalGetState) (_success : Bool) : CoalGetState :=
  { s with ongoing := none }

/-- `n` concurrent `get(k)` calls arriving while nothing settles:
iterates `coalGetStart`, collecting the promise each caller receives. -/
def coalGetN : Nat → CoalGetState → CoalGetState × List Nat
  | 0, s => (s, [])
  | n + 1, s =>
    let r1 := coalGetStart s
    let r2 := coalGetN n r1.1
    (r2.1, r1.2 :: r2.2)

/-- `n` sequential non-overlapping `get(k)` calls: each call starts and its
underlying promise settles before the next begins. -/
def coalSeqN : Nat → CoalGetState → CoalGetState
  | 0, s => s
  | n + 1, s => coalSeqN n (coalSettle (coalGetStart s).1 true)

theorem coalGetN_ongoing (n : Nat) (s : CoalGetState) (p : Nat) (h : s.ongoing = some p) :
    coalGetN n s = (s, List.replicate n p) := by
  induction n with
  | zero => simp [coalGetN]
  | succ n ih => simp [coalGetN, coalGetStart, h, ih, List.replicate]

/-- C1: while an ongoing-request record for `k` exists, `get(k)` returns that
promise of that record and `getOrLoad` awaits it, neither invoking the underlying
cache; the record is removed when the underlying call settles whether it
succeeded or failed; hence `n + 1` concurrent `get(k)` calls overlapping one
pending underlying `get` invoke the underlying cache exactly once and all
receive the same promise, while `n` sequential non-overlapping calls invoke
the underlying cache `n` times. -/
theorem C1_coalescing_single_flight (s : CoalGetState) (p : Nat) (n : Nat) (success : Bool) :
    (s.ongoing = some p → coalGetStart s = (s, p)) ∧
    (s.ongoing = some p → coalGOLStart s = (s, p)) ∧
    ((coalSettle s success).ongoing = none) ∧
    (s.ongoing = none →
      (coalGetN (n + 1) s).1.calls = s.calls + 1 ∧
      ∀ q ∈ (coalGetN (n + 1) s).2, q = s.nextId) ∧
    (s.ongoing = none → (coalSeqN n s).calls = s.calls + n) := by
  refine ⟨fun h => by simp [coalGetStart, h],
          fun h => by simp [coalGOLStart, h],
          by simp [coalSettle],
          fun h => ?_, fun h => ?_⟩
  · have h1 : coalGetStart s =
        (({ ongoing := some s.nextId, nextId := s.nextId + 1, calls := s.calls + 1 } :
            CoalGetState), s.nextId) := by
      simp [coalGetStart, h]
    have h2 := coalGetN_ongoing n
      { ongoing := some s.nextId, nextId := s.nextId + 1, calls := s.calls + 1 } s.nextId rfl
    have hrun : coalGetN (n + 1) s =
        (({ ongoing := some s.nextId, nextId := s.nextId + 1, calls := s.calls + 1 } :
            CoalGetState), List.replicate (n + 1) s.nextId) := by
      simp [coalGetN, h1, h2, List.replicate]
    rw [hrun]
    constructor
    · rfl
    · intro q hq
      simpa using List.eq_of_mem_replicate hq
  · induction n generalizing s with
    | zero => simp [coalSeqN]
    | succ n ih =>
      have : coalSeqN (n + 1) s =
          coalSeqN n ({ ongoing := none, nextId := s.nextId + 1, calls := s.calls + 1 }) := by
        simp [coalSeqN, coalGetStart, h, coalSettle]
      rw [this, ih _ rfl]
      show s.calls + 1 + n = s.calls + (n + 1)
      omega

/-- C1 witness: the theorem evaluated at concrete states. -/
theorem C1_coalescing_single_flight_witness :
    coalGetStart ⟨some 5, 7, 3⟩ = (⟨some 5, 7, 3⟩, 5) ∧
    (coalGetN 4 ⟨none, 0, 0⟩).1.calls = 1 ∧
    (coalSeqN 3 ⟨none, 0, 0⟩).calls = 3 := by
  refine ⟨(C1_coalescing_single_flight ⟨some 5, 7, 3⟩ 5 0 true).1 rfl, ?_, ?_⟩
  · have h := ((C1_coalescing_single_flight ⟨none, 0, 0⟩ 0 3 true).2.2.2.1 rfl).1
    simpa using h
  · have h := (C1_coalescing_single_flight ⟨none, 0, 0⟩ 0 3 true).2.2.2.2 rfl
    simpa using h

/-! ### CoalescingCache.getOrLoad, the ongoing-record branch

Value-level model of the branch of `CoalescingCache.getOrLoad` taken when
an ongoing-request record exists: the method awaits the record and then
either returns the awaited result or falls through to calling the loader
directly. The state carries the per-key record (type only; the record
present after the await has settled is `none`, since the `.finally`
handler of the awaited promise removed it) and the underlying store
content for key `k` as an association list. -/

/-- Per-key state of `CoalescingCache` for the getOrLoad fallthrough model:
the ongoing-request record for the key (its `type`, if a record is
present), and the content of the underlying cache. -/
structure CoalState (V : Type) where
  ongoing : Option ReqType
  store : List (String × V)
deriving DecidableEq, Repr

/-- The fallthrough registers a fresh ongoing record of type `getOrLoad`
(`this.ongoingRequests.set` with type `getOrLoad`). -/
def coalRegisterLoad {V : Type} (s : CoalState V) : CoalState V :=
  { s with ongoing := some ReqType.getOrLoad }

/-- The fallthrough stores the loader result in the underlying cache
(`await this.cache.set(key, request, options)`). -/
def coalSetStep {V : Type} (k : String) (v : V) (s : CoalState V) : CoalState V :=
  { s with store := ainsert s.store k v }

/-- The `finally` block of the fallthrough removes the ongoing record only
after the `set` has completed. -/
def coalFinishLoad {V : Type} (s : CoalState V) : CoalState V :=
  { s with ongoing := none }

/-- The continuation of `CoalescingCache.getOrLoad` after awaiting an
ongoing record: `rt` is the `type` field of the record, `r` the value the awaited
promise resolved to (`none` models JS `null`), `lv` the value the loader
would produce (the loader returns a `T`, hence never `null`, so the
`request !== null` guard before the `set` always passes), `s` the state
after the awaited promise settled (record already removed by its
`.finally`). Returns (value returned to the caller, number of loader
invocations, final state). -/
def coalGetOrLoadAwaited {V : Type} (rt : ReqType) (r : Option V) (lv : V) (k : String)
    (s : CoalState V) : Option V × Nat × CoalState V :=
  if r.isSome || rt == ReqType.getOrLoad then
    (r, 0, s)
  else
    (some lv, 1, coalFinishLoad (coalSetStep k lv (coalRegisterLoad s)))

/-- C7: after awaiting an ongoing record, `CoalescingCache.getOrLoad`
returns a present result without invoking the loader; returns the result
of a record of kind `getOrLoad` (load) as-is, never invoking the loader;
and on an absent result of a record of kind `get` (read) it invokes the
loader exactly once, registers the attempt as a record of kind
`getOrLoad` that is still in place when the `set` of the loader result
into the underlying cache completes, performs that `set`, removes the
record only afterwards, and returns the loaded value. -/
theorem C7_coalescing_getOrLoad_ongoing {V : Type} (rt : ReqType) (r : Option V) (lv : V)
    (k : String) (s : CoalState V) :
    (∀ v, rt = ReqType.get → r = some v →
      coalGetOrLoadAwaited rt r lv k s = (some v, 0, s)) ∧
    (rt = ReqType.getOrLoad → coalGetOrLoadAwaited rt r lv k s = (r, 0, s)) ∧
    (rt = ReqType.get → r = none →
      coalGetOrLoadAwaited rt r lv k s =
        (some lv, 1, coalFinishLoad (coalSetStep k lv (coalRegisterLoad s))) ∧
      (coalRegisterLoad s).ongoing = some ReqType.getOrLoad ∧
      (coalSetStep k lv (coalRegisterLoad s)).ongoing = some ReqType.getOrLoad ∧
      (coalSetStep k lv (coalRegisterLoad s)).store = ainsert s.store k lv ∧
      (coalFinishLoad (coalSetStep k lv (coalRegisterLoad s))).ongoing = none ∧
      alookup (coalFinishLoad (coalSetStep k lv (coalRegisterLoad s))).store k = some lv) := by
  refine ⟨fun v hrt hr => ?_, fun hrt => ?_, fun hrt hr => ?_⟩
  · simp [coalGetOrLoadAwaited, hr]
  · simp [coalGetOrLoadAwaited, hrt]
  · subst hrt hr
    refine ⟨by simp [coalGetOrLoadAwaited], rfl, rfl, rfl, rfl, ?_⟩
    simp [coalFinishLoad, coalSetStep, coalRegisterLoad]

/-- C7 witness: the three branches at concrete inputs. -/
theorem C7_coalescing_getOrLoad_ongoing_witness :
    coalGetOrLoadAwaited ReqType.get (some 7) 9 "k" (⟨none, []⟩ : CoalState Nat) =
      (some 7, 0, ⟨none, []⟩) ∧
    coalGetOrLoadAwaited ReqType.getOrLoad (none : Option Nat) 9 "k" ⟨none, []⟩ =
      (none, 0, ⟨none, []⟩) ∧
    coalGetOrLoadAwaited ReqType.get (none : Option Nat) 9 "k" ⟨none, []⟩ =
      (some 9, 1, ⟨none, [("k", 9)]⟩) := by
  refine ⟨(C7_coalescing_getOrLoad_ongoing ReqType.get (some 7) 9 "k" ⟨none, []⟩).1 7 rfl rfl,
          (C7_coalescing_getOrLoad_ongoing ReqType.getOrLoad none 9 "k" ⟨none, []⟩).2.1 rfl,
          ?_⟩
  have h := ((C7_coalescing_getOrLoad_ongoing ReqType.get none 9 "k"
      (⟨none, []⟩ : CoalState Nat)).2.2 rfl rfl).1
  simpa [coalFinishLoad, coalSetStep, coalRegisterLoad, ainsert] using h

/-! ### Completed sequential operations of the Coalescing layer (for the
round-trip law). A completed `set(k, v)` writes through to the underlying
cache; the record it registered while in flight is removed when the
underlying `set` settles, so the quiescent state has no record. A
completed `get(k)` at a quiescent state performs one underlying `get`
(its record likewise created and removed within the call). -/

/-- A completed `CoalescingCache.set(k, v)`: underlying store updated,
ongoing record removed on settle. -/
def coalSetDone {V : Type} (k : String) (v : V) (s : CoalState V) : CoalState V :=
  { ongoing := none, store := ainsert s.store k v }

/-- A completed `CoalescingCache.get(k)` from a quiescent state: the result
of the underlying `get`; the state is unchanged once the call settles. -/
def coalGetDone {V : Type} (k : String) (s : CoalState V) : Option V × CoalState V :=
  (alookup s.store k, s)

/-! ## Stale-While-Revalidate layer (SWRCache)

The wrapped cache stores `CachedItem` envelopes under the keys the SWR
layer manages; because `SWRCache.setMany` passes the raw values through
(see `swrSetMany`), the store value type is a sum of envelope and raw
value. Each store entry also records the `ttl` (in seconds) passed to the
underlying `set`/`setMany`, so the `ttl + staleTTL` contract is
observable. The `revalidating` list is the key set of the source
`Map<string, Promise<any>>`. -/

/-- The SWR envelope (`interface CachedItem<T> { data: T; expiresAt: number }`). -/
structure CachedItem (V : Type) where
  data : V
  expiresAt : Nat
deriving DecidableEq, Repr

/-- A value as stored in the cache wrapped by `SWRCache`: an envelope when
written through `set`/`getOrLoad`, or a raw value (what `setMany`
actually passes through). -/
inductive SWRStored (V : Type) where
  | item (e : CachedItem V)
  | raw (v : V)
deriving DecidableEq, Repr

/-- State of an `SWRCache`: the underlying store (each entry also records
the ttl seconds it was written with) and the in-flight revalidation keys. -/
structure SWRState (V : Type) where
  store : List (String × (SWRStored V × Nat))
  revalidating : List String
deriving DecidableEq, Repr

/-- `options.ttl || this.defaultTTL`: a missing ttl, and also the JS-falsy
ttl `0`, fall back to the default. -/
def effTTL (ttlOpt : Option Nat) (defaultTTL : Nat) : Nat :=
  match ttlOpt with
  | some t => if t = 0 then defaultTTL else t
  | none => defaultTTL

/-- `SWRCache.get`: read the underlying entry and unwrap
(`item === null ? null : item.data`). On a raw (non-envelope) value the
JS `item.data` is `undefined`, embedded as `none`. -/
def swrGet {V : Type} (k : String) (s : SWRState V) : Option V :=
  match alookup s.store k with
  | none => none
  | some (SWRStored.item e, _) => some e.data
  | some (SWRStored.raw _, _) => none

/-- `SWRCache.set`: wrap the value as `{ data, expiresAt: now + ttl*1000 }`
and store it with ttl `ttl + staleTTL`. -/
def swrSet {V : Type} (k : String) (v : V) (ttlOpt : Option Nat)
    (defaultTTL staleTTL now : Nat) (s : SWRState V) : SWRState V :=
  let ttl := effTTL ttlOpt defaultTTL
  { s with
    store := ainsert s.store k (SWRStored.item ⟨v, now + ttl * 1000⟩, ttl + staleTTL) }

/-- Outcome of one `SWRCache.getOrLoad` call: the value returned to the
caller, whether the loader ran synchronously (blocking the caller),
whether a background refresh was started, and the state at return. -/
structure SWRGOLResult (V : Type) where
  result : Option V
  loaderInvoked : Bool
  refreshStarted : Bool
  state : SWRState V
deriving DecidableEq, Repr

/-- `SWRCache.getOrLoad(key, load, options)` up to the point the caller
resumes. `lv` is the value `load` would resolve to. The underlying
read-through either hits (returning the stored entry) or misses (running
`loadItem` synchronously and storing the fresh envelope with ttl
`ttl + staleTTL`). Afterwards the source checks
`item.expiresAt < Date.now() && !this.revalidating.has(key)` and, when it
holds, registers the key in `revalidating` and starts the background
refresh; the caller gets `item.data` either way. On a raw stored value the
JS `item.expiresAt` is `undefined`, the comparison is false, and
`item.data` is `undefined` (`none`). -/
def swrGetOrLoad {V : Type} (k : String) (lv : V) (ttlOpt : Option Nat)
    (defaultTTL staleTTL now : Nat) (s : SWRState V) : SWRGOLResult V :=
  let ttl := effTTL ttlOpt defaultTTL
  match alookup s.store k with
  | some (SWRStored.item e, _) =>
    if e.expiresAt < now ∧ ¬k ∈ s.revalidating then
      ⟨some e.data, false, true, { s with revalidating := k :: s.revalidating }⟩
    else
      ⟨some e.data, false, false, s⟩
  | some (SWRStored.raw _, _) => ⟨none, false, false, s⟩
  | none =>
    let e : CachedItem V := ⟨lv, now + ttl * 1000⟩
    let st1 : SWRState V :=
      { s with store := ainsert s.store k (SWRStored.item e, ttl + staleTTL) }
    if e.expiresAt < now ∧ ¬k ∈ s.revalidating then
      ⟨some e.data, true, true, { st1 with revalidating := k :: st1.revalidating }⟩
    else
      ⟨some e.data, true, false, st1⟩

/-- Settling of the background refresh task
`loadItem().then(newItem => this.cache.set(key, newItem, cacheOptions)).finally(() => this.revalidating.delete(key))`:
on success (`ok = true`, the loader resolved to `lv2` at time `nowLoad`)
the fresh envelope is set back with ttl `ttl + staleTTL`; on failure the
`then` step never runs. Either way the `finally` handler removes the key
from `revalidating`; the rejection is not rethrown to any caller (no one
awaits the stored promise), so the step is total. -/
def swrRevalidate {V : Type} (k : String) (lv2 : V) (ttlOpt : Option Nat)
    (defaultTTL staleTTL nowLoad : Nat) (ok : Bool) (s : SWRState V) : SWRState V :=
  let ttl := effTTL ttlOpt defaultTTL
  if ok then
    { store := ainsert s.store k (SWRStored.item ⟨lv2, nowLoad + ttl * 1000⟩, ttl + staleTTL),
      revalidating := s.revalidating.filter (fun x => x != k) }
  else
    { s with revalidating := s.revalidating.filter (fun x => x != k) }

/-- `SWRCache.getMany`: underlying `getMany`, then
`items[key] = value ? value.data : null` for every requested key. -/
def swrGetMany {V : Type} (keys : List String) (s : SWRState V) : List (String × Option V) :=
  keys.map (fun k => (k,
    match alookup s.store k with
    | none => none
    | some (SWRStored.item e, _) => some e.data
    | some (SWRStored.raw _, _) => none))

/-- `SWRCache.setMany`: the source computes the wrapped record
`items[key] = { data: value, expiresAt: now + ttl*1000 }` but then calls
`this.cache.setMany(data, { ...options, ttl: ttl + staleTTL })` with the
RAW `data` record, so the underlying cache receives the unwrapped values
(the computed `items` record is discarded). -/
def swrSetMany {V : Type} (data : List (String × V)) (ttlOpt : Option Nat)
    (defaultTTL staleTTL _now : Nat) (s : SWRState V) : SWRState V :=
  let ttl := effTTL ttlOpt defaultTTL
  { s with
    store := data.foldl (fun st p => ainsert st p.1 (SWRStored.raw p.2, ttl + staleTTL)) s.store }

theorem filter_ne_of_not_mem {k : String} {l : List String} (h : ¬k ∈ l) :
    l.filter (fun x => x != k) = l := by
  induction l with
  | nil => rfl
  | cons a t ih =>
    simp only [List.mem_cons, not_or] at h
    have hak : (a != k) = true := by
      simp [bne, Ne.symm h.1]
    simp [List.filter, hak, ih h.2]

/-- C2 (amended): when the wrapped cache holds an envelope with
`expiresAt < now` (strictly — the stale window), `getOrLoad` returns the
stale data immediately without running the loader and, if no revalidation
is in flight for the key, starts exactly one background refresh and
registers it; a concurrent stale read while the refresh is in flight does
not start another; the refresh completion wraps the fresh value with a new
`expiresAt` and sets it back with ttl `ttl + staleTTL`. -/
theorem C2_swr_stale_refresh {V : Type} (k : String) (lv lv2 : V) (ttlOpt : Option Nat)
    (defaultTTL staleTTL now now2 : Nat) (s : SWRState V) (e : CachedItem V) (r : Nat)
    (hlook : alookup s.store k = some (SWRStored.item e, r))
    (hstale : e.expiresAt < now) :
    (¬k ∈ s.revalidating →
      swrGetOrLoad k lv ttlOpt defaultTTL staleTTL now s =
        ⟨some e.data, false, true, { s with revalidating := k :: s.revalidating }⟩) ∧
    (k ∈ s.revalidating →
      swrGetOrLoad k lv ttlOpt defaultTTL staleTTL now s = ⟨some e.data, false, false, s⟩) ∧
    (swrRevalidate k lv2 ttlOpt defaultTTL staleTTL now2 true s =
      { store := ainsert s.store k
          (SWRStored.item ⟨lv2, now2 + effTTL ttlOpt defaultTTL * 1000⟩,
            effTTL ttlOpt defaultTTL + staleTTL),
        revalidating := s.revalidating.filter (fun x => x != k) }) := by
  refine ⟨fun hmem => ?_, fun hmem => ?_, ?_⟩
  · simp [swrGetOrLoad, hlook, hstale, hmem]
  · simp [swrGetOrLoad, hlook, hstale, hmem]
  · simp [swrRevalidate]

/-- C2 witness: a stale envelope (`expiresAt = 1000 < now = 5000`) with no
refresh in flight. -/
theorem C2_swr_stale_refresh_witness :
    swrGetOrLoad "k" 2 none 60 10 5000
        (⟨[("k", (SWRStored.item ⟨1, 1000⟩, 70))], []⟩ : SWRState Nat) =
      ⟨some 1, false, true, ⟨[("k", (SWRStored.item ⟨1, 1000⟩, 70))], ["k"]⟩⟩ := by
  have h := (C2_swr_stale_refresh "k" 2 9 none 60 10 5000 0
      (⟨[("k", (SWRStored.item ⟨1, 1000⟩, 70))], []⟩ : SWRState Nat) ⟨1, 1000⟩ 70
      (by simp [alookup]) (by decide)).1 (by simp)
  simpa using h

/-- C2 counterexample: the claim declares the stale window to be
`expiresAt ≤ now`, but at the boundary `expiresAt = now` the source
comparison `item.expiresAt < Date.now()` is false: the read returns the
data yet starts no background refresh and registers nothing, refuting the
claimed behavior at `expiresAt = now = 60000` with no revalidation in
flight. -/
theorem C2_swr_stale_boundary_counterexample :
    (60000 ≤ 60000) ∧
    (swrGetOrLoad "k" 2 none 60 10 60000
        (⟨[("k", (SWRStored.item ⟨1, 60000⟩, 70))], []⟩ : SWRState Nat)).refreshStarted
      = false ∧
    (swrGetOrLoad "k" 2 none 60 10 60000
        (⟨[("k", (SWRStored.item ⟨1, 60000⟩, 70))], []⟩ : SWRState Nat)).state.revalidating
      = [] ∧
    (swrGetOrLoad "k" 2 none 60 10 60000
        (⟨[("k", (SWRStored.item ⟨1, 60000⟩, 70))], []⟩ : SWRState Nat)).result = some 1 := by
  refine ⟨by decide, ?_, ?_, ?_⟩ <;> simp [swrGetOrLoad, alookup]

/-- C8: a failing background revalidation is absorbed: the caller that
triggered the refresh already received the stale data (the background
outcome cannot reach it), the failure path removes the per-key
revalidating entry while leaving the store untouched, and a later stale
read starts a new refresh. -/
theorem C8_swr_revalidation_failure {V : Type} (k : String) (lv lv2 lv3 : V)
    (ttlOpt : Option Nat) (defaultTTL staleTTL now now2 now3 : Nat) (s : SWRState V)
    (e : CachedItem V) (r : Nat)
    (hlook : alookup s.store k = some (SWRStored.item e, r))
    (hstale : e.expiresAt < now)
    (hnot : ¬k ∈ s.revalidating) :
    (swrGetOrLoad k lv ttlOpt defaultTTL staleTTL now s).result = some e.data ∧
    (swrGetOrLoad k lv ttlOpt defaultTTL staleTTL now s).loaderInvoked = false ∧
    (swrRevalidate k lv2 ttlOpt defaultTTL staleTTL now2 false
        (swrGetOrLoad k lv ttlOpt defaultTTL staleTTL now s).state).store = s.store ∧
    (swrRevalidate k lv2 ttlOpt defaultTTL staleTTL now2 false
        (swrGetOrLoad k lv ttlOpt defaultTTL staleTTL now s).state).revalidating
      = s.revalidating ∧
    (e.expiresAt < now3 →
      (swrGetOrLoad k lv3 ttlOpt defaultTTL staleTTL now3
          (swrRevalidate k lv2 ttlOpt defaultTTL staleTTL now2 false
            (swrGetOrLoad k lv ttlOpt defaultTTL staleTTL now s).state)).refreshStarted
        = true) := by
  have hrun : swrGetOrLoad k lv ttlOpt defaultTTL staleTTL now s =
      ⟨some e.data, false, true, { s with revalidating := k :: s.revalidating }⟩ := by
    simp [swrGetOrLoad, hlook, hstale, hnot]
  have hfail : swrRevalidate k lv2 ttlOpt defaultTTL staleTTL now2 false
      (swrGetOrLoad k lv ttlOpt defaultTTL staleTTL now s).state =
      { store := s.store, revalidating := s.revalidating } := by
    rw [hrun]
    simp [swrRevalidate, List.filter, filter_ne_of_not_mem hnot]
  refine ⟨by rw [hrun], by rw [hrun], by rw [hfail], by rw [hfail], fun hstale3 => ?_⟩
  rw [hfail]
  simp [swrGetOrLoad, hlook, hstale3, hnot]

/-- C8 witness: concrete stale entry, failed refresh, subsequent stale
read starts a fresh refresh. -/
theorem C8_swr_revalidation_failure_witness :
    (swrGetOrLoad "k" 2 none 60 10 5000
        (⟨[("k", (SWRStored.item ⟨1, 1000⟩, 70))], []⟩ : SWRState Nat)).result = some 1 ∧
    (swrRevalidate "k" 9 none 60 10 6000 false
        (swrGetOrLoad "k" 2 none 60 10 5000
          (⟨[("k", (SWRStored.item ⟨1, 1000⟩, 70))], []⟩ : SWRState Nat)).state).revalidating
      = [] ∧
    (swrGetOrLoad "k" 3 none 60 10 7000
        (swrRevalidate "k" 9 none 60 10 6000 false
          (swrGetOrLoad "k" 2 none 60 10 5000
            (⟨[("k", (SWRStored.item ⟨1, 1000⟩, 70))], []⟩ : SWRState Nat)).state)).refreshStarted
      = true := by
  have h := C8_swr_revalidation_failure "k" 2 9 3 none 60 10 5000 6000 7000
    (⟨[("k", (SWRStored.item ⟨1, 1000⟩, 70))], []⟩ : SWRState Nat) ⟨1, 1000⟩ 70
    (by simp [alookup]) (by decide) (by simp)
  exact ⟨h.1, h.2.2.2.1, h.2.2.2.2 (by decide)⟩

/-- C5: evaluation of `SWRCache.setMany` followed by `getMany` at the
failing input of the unit test: the raw value is stored in place of the
envelope, and the subsequent `getMany` cannot unwrap it. -/
theorem C5_swr_setMany_stores_raw :
    (swrSetMany [("key1", "value1")] (some 150) 240 60 3000 (⟨[], []⟩ : SWRState String)).store
      = [("key1", (SWRStored.raw "value1", 210))] ∧
    swrGetMany ["key1"] (swrSetMany [("key1", "value1")] (some 150) 240 60 3000 ⟨[], []⟩)
      = [("key1", none)] := by
  constructor <;> rfl

/-! ## Tagging layer (TaggingCache)

The source stores tagged envelopes `{ v, d, t }` under data keys and
invalidation markers (numbers) under keys `tagPrefix + tag` of the same
underlying cache. The default marker namespace makes marker keys disjoint
from data keys, so the state below splits the underlying store into the
entry table and the marker table, with the marker table keyed by the bare
tag name (the constant namespacing string is dropped). -/

/-- The tagged envelope (`interface TaggedValue<T> { v: T; d: number; t: string[] }`):
the value, its creation timestamp, and its tags. -/
structure TaggedValue (V : Type) where
  v : V
  d : Nat
  t : List String
deriving DecidableEq, Repr

/-- State of a `TaggingCache`: the tagged entries and the tag invalidation
markers of the underlying cache. -/
structure TaggingState (V : Type) where
  entries : List (String × TaggedValue V)
  markers : List (String × Nat)
deriving DecidableEq, Repr

/-- The loop body of `TaggingCache.isItemExpired`:
`!tagTimestamp || tagTimestamp > timestamp`, where `!tagTimestamp` holds
for a missing marker and for the JS-falsy marker value `0`. -/
def expiredTag (m : List (String × Nat)) (timestamp : Nat) (tg : String) : Bool :=
  match alookup m tg with
  | none => true
  | some ts => ts == 0 || decide (timestamp < ts)

/-- `TaggingCache.isItemExpired(tags, timestamp)`: an empty tag list is
never expired; otherwise expired when some tag satisfies `expiredTag`. -/
def isItemExpired (tags : List String) (timestamp : Nat) (m : List (String × Nat)) : Bool :=
  if tags.isEmpty then false
  else tags.any (expiredTag m timestamp)

theorem expiredTag_eq_true_iff (m : List (String × Nat)) (d : Nat) (tg : String) :
    expiredTag m d tg = true ↔
      alookup m tg = none ∨ alookup m tg = some 0 ∨
        ∃ ts, alookup m tg = some ts ∧ d < ts := by
  unfold expiredTag
  cases hm : alookup m tg with
  | none => simp
  | some ts => by_cases hts : ts = 0 <;> simp [hts]

/-- The per-tag value written by `TaggingCache.refreshTags`:
`newTimestamps[key] = currentTimestamps[key] || timestamp` over the marker
table read before any write (a missing or JS-falsy `0` marker is replaced
by the provided timestamp, an existing one is kept). -/
def refreshVal (m : List (String × Nat)) (timestamp : Nat) (tg : String) : Nat :=
  match alookup m tg with
  | some ts => if ts = 0 then timestamp else ts
  | none => timestamp

/-- `TaggingCache.refreshTags(tags, timestamp)`: returns immediately on an
empty tag list; otherwise writes `refreshVal` for every tag (the reads all
happen against the table as it was before the batch write). -/
def refreshTags (m : List (String × Nat)) (tags : List String) (timestamp : Nat) :
    List (String × Nat) :=
  if tags.isEmpty then m
  else tags.foldl (fun acc tg => ainsert acc tg (refreshVal m timestamp tg)) m

/-- `TaggingCache.get(key)`: read the envelope; a missing entry is a miss;
an entry whose tags are invalidated is proactively deleted from the
underlying cache and reported as a miss; otherwise the value is unwrapped. -/
def taggingGet {V : Type} (s : TaggingState V) (k : String) : Option V × TaggingState V :=
  match alookup s.entries k with
  | none => (none, s)
  | some e =>
    if isItemExpired e.t e.d s.markers then
      (none, { s with entries := aerase s.entries k })
    else
      (some e.v, s)

/-- `TaggingCache.set(key, value, options)`: refresh the markers of
`options.tags` (missing list means `[]`), then store
`{ v: value, d: now, t: tags }`. -/
def taggingSet {V : Type} (s : TaggingState V) (k : String) (v : V) (tags : List String)
    (now : Nat) : TaggingState V :=
  { entries := ainsert s.entries k ⟨v, now, tags⟩,
    markers := refreshTags s.markers tags now }

/-- `TaggingCache.getMany(keys)`: one underlying `getMany`, then for each
requested key unwrap, mapping missing or tag-expired entries to `null` and
deleting the expired ones. -/
def taggingGetMany {V : Type} (s : TaggingState V) (keys : List String) :
    List (String × Option V) × TaggingState V :=
  (keys.map (fun k => (k,
      match alookup s.entries k with
      | none => none
      | some e => if isItemExpired e.t e.d s.markers then none else some e.v)),
   { s with entries := keys.foldl (fun es k =>
      match alookup s.entries k with
      | some e => if isItemExpired e.t e.d s.markers then aerase es k else es
      | none => es) s.entries })

/-- `TaggingCache.getOrLoad(key, load, options)`: read-through on the
underlying cache with `loadWithTags` (load, refresh the option tags,
envelope the result); when the entry came from the cache and its tags are
invalidated, force one load from source, set the fresh envelope, and
refresh the tags once more. `lv` is the value `load` resolves to. -/
def taggingGetOrLoad {V : Type} (s : TaggingState V) (k : String) (lv : V)
    (tags : List String) (now : Nat) : V × TaggingState V :=
  match alookup s.entries k with
  | none =>
    (lv, { entries := ainsert s.entries k ⟨lv, now, tags⟩,
           markers := refreshTags s.markers tags now })
  | some e =>
    if isItemExpired e.t e.d s.markers then
      let m1 := refreshTags s.markers tags now
      (lv, { entries := ainsert s.entries k ⟨lv, now, tags⟩,
             markers := refreshTags m1 tags now })
    else
      (e.v, s)

theorem alookup_foldl_ainsert {α : Type} (tags : List String) (acc : List (String × α))
    (f : String → α) (tg : String) :
    alookup (tags.foldl (fun m2 t2 => ainsert m2 t2 (f t2)) acc) tg =
      if tg ∈ tags then some (f tg) else alookup acc tg := by
  induction tags generalizing acc with
  | nil => simp
  | cons a t ih =>
    simp only [List.foldl_cons, ih]
    by_cases hmem : tg ∈ t
    · simp [hmem]
    · by_cases ha : a = tg
      · subst ha
        simp [hmem]
      · simp [hmem, Ne.symm ha, alookup_ainsert_ne _ _ _ _ (Ne.symm ha)]

theorem alookup_map_keys {α : Type} (keys : List String) (f : String → α) (k : String)
    (hk : k ∈ keys) : alookup (keys.map (fun x => (x, f x))) k = some (f k) := by
  induction keys with
  | nil => simp at hk
  | cons a t ih =>
    by_cases ha : a = k
    · subst ha
      simp [alookup]
    · have hk2 : k ∈ t := by
        rcases List.mem_cons.mp hk with h | h
        · exact absurd h.symm ha
        · exact h
      simp [alookup, ha, ih hk2]

/-- C3 (amended): for a stored tagged entry, `get` treats it as a miss and
proactively deletes it exactly when some tag marker is missing, is the
JS-falsy timestamp `0`, or has a timestamp STRICTLY GREATER than the entry
`createdAt`; otherwise the unwrapped value is returned. (The claim stated
the threshold as `≥ createdAt`; the source comparison is
`tagTimestamp > timestamp`.) -/
theorem C3_tagging_get_expiry {V : Type} (s : TaggingState V) (k : String)
    (e : TaggedValue V) (hlook : alookup s.entries k = some e) :
    (isItemExpired e.t e.d s.markers = true →
      taggingGet s k = (none, { s with entries := aerase s.entries k })) ∧
    (isItemExpired e.t e.d s.markers = false →
      taggingGet s k = (some e.v, s)) ∧
    (isItemExpired e.t e.d s.markers = true ↔
      ∃ tg ∈ e.t, alookup s.markers tg = none ∨ alookup s.markers tg = some 0 ∨
        ∃ ts, alookup s.markers tg = some ts ∧ e.d < ts) := by
  refine ⟨fun h => by simp [taggingGet, hlook, h], fun h => by simp [taggingGet, hlook, h], ?_⟩
  unfold isItemExpired
  by_cases hemp : e.t.isEmpty
  · rw [List.isEmpty_iff] at hemp
    simp [hemp]
  · simp [hemp, List.any_eq_true, expiredTag_eq_true_iff]

/-- C3 witness: an invalidated tag (marker at 150 strictly after creation
at 100) gives a deleting miss; a marker at 50 before creation gives a hit. -/
theorem C3_tagging_get_expiry_witness :
    taggingGet (⟨[("k", ⟨"v", 100, ["t"]⟩)], [("t", 150)]⟩ : TaggingState String) "k"
      = (none, ⟨[], [("t", 150)]⟩) ∧
    taggingGet (⟨[("k", ⟨"v", 100, ["t"]⟩)], [("t", 50)]⟩ : TaggingState String) "k"
      = (some "v", ⟨[("k", ⟨"v", 100, ["t"]⟩)], [("t", 50)]⟩) := by
  constructor
  · have h := (C3_tagging_get_expiry
      (⟨[("k", ⟨"v", 100, ["t"]⟩)], [("t", 150)]⟩ : TaggingState String) "k"
      ⟨"v", 100, ["t"]⟩ (by simp [alookup])).1 (by decide)
    simpa [aerase] using h
  · exact (C3_tagging_get_expiry
      (⟨[("k", ⟨"v", 100, ["t"]⟩)], [("t", 50)]⟩ : TaggingState String) "k"
      ⟨"v", 100, ["t"]⟩ (by simp [alookup])).2.1 (by decide)

/-- C3 counterexample: a marker timestamp exactly equal to the entry
`createdAt` (`150 ≥ 150`) is declared a miss by the claim, but the source
comparison is strict, so `get` returns the value and deletes nothing. -/
theorem C3_tagging_boundary_counterexample :
    (150 ≥ 150) ∧
    taggingGet (⟨[("k", ⟨"v", 150, ["t"]⟩)], [("t", 150)]⟩ : TaggingState String) "k"
      = (some "v", ⟨[("k", ⟨"v", 150, ["t"]⟩)], [("t", 150)]⟩) := by
  exact ⟨le_refl 150, rfl⟩

/-- C9: an entry stored with no tags is never treated as tag-expired:
`get`, `getMany` and `getOrLoad` return its value whatever the marker
table holds, no deletion happens on its behalf, and `refreshTags` and
`isItemExpired` return immediately on an empty tag list. -/
theorem C9_tagging_untagged_never_expired {V : Type} (s : TaggingState V) (k : String)
    (e : TaggedValue V) (lv : V) (tags : List String) (keys : List String)
    (m : List (String × Nat)) (d now : Nat)
    (hlook : alookup s.entries k = some e) (hnotags : e.t = []) :
    taggingGet s k = (some e.v, s) ∧
    (k ∈ keys → alookup (taggingGetMany s keys).1 k = some (some e.v)) ∧
    taggingGetOrLoad s k lv tags now = (e.v, s) ∧
    isItemExpired [] d m = false ∧
    refreshTags m [] now = m := by
  have hexp : isItemExpired e.t e.d s.markers = false := by
    simp [isItemExpired, hnotags]
  refine ⟨by simp [taggingGet, hlook, hexp], fun hk => ?_,
    by simp [taggingGetOrLoad, hlook, hexp], by simp [isItemExpired], by simp [refreshTags]⟩
  have := alookup_map_keys keys
    (fun k1 => match alookup s.entries k1 with
      | none => none
      | some e1 => if isItemExpired e1.t e1.d s.markers then none else some e1.v) k hk
  simpa [taggingGetMany, hlook, hexp] using this

/-- C9 witness: an untagged entry beside a hostile marker table (marker
missing for one tag, another at a huge timestamp). -/
theorem C9_tagging_untagged_never_expired_witness :
    taggingGet (⟨[("k", ⟨"v", 100, []⟩)], [("t", 999999)]⟩ : TaggingState String) "k"
      = (some "v", ⟨[("k", ⟨"v", 100, []⟩)], [("t", 999999)]⟩) ∧
    alookup (taggingGetMany (⟨[("k", ⟨"v", 100, []⟩)], [("t", 999999)]⟩ : TaggingState String)
      ["k"]).1 "k" = some (some "v") ∧
    taggingGetOrLoad (⟨[("k", ⟨"v", 100, []⟩)], [("t", 999999)]⟩ : TaggingState String)
      "k" "w" [] 200 = ("v", ⟨[("k", ⟨"v", 100, []⟩)], [("t", 999999)]⟩) := by
  have h := C9_tagging_untagged_never_expired
    (⟨[("k", ⟨"v", 100, []⟩)], [("t", 999999)]⟩ : TaggingState String) "k"
    ⟨"v", 100, []⟩ "w" [] ["k"] [] 0 200 (by simp [alookup]) rfl
  exact ⟨h.1, h.2.1 (by simp), h.2.2.1⟩

/-! ## Tiered layer (src/layers/tiered/index.ts)

A tier is a `CacheTier` descriptor: a cache plus its optional configured
`SetCacheOptions`. Tier caches are embedded with the base-class dispatch
semantics of src/base (a hit answers, a miss of `getOrLoad` runs the
loader and then unconditionally `set`s its result with the options it was
given), which is the behavior of every store of the repository. The store
records, per key, the value written (possibly JS `null`, since the base
`getOrLoad` also writes back a `null` loader result) and the options the
write used; `O` is the type of option values. -/

/-- A `CacheTier`: the tier store (key, value-or-null, options used at
write time) and the configured `options` of the descriptor. -/
structure Tier (V O : Type) where
  store : List (String × (Option V × Option O))
  opts : Option O
deriving DecidableEq, Repr

/-- A tier `get` through the base dispatch: the stored value, a stored
`null` reading as a miss. -/
def tlookup {V O : Type} (t : Tier V O) (k : String) : Option V :=
  match alookup t.store k with
  | some (ov, _) => ov
  | none => none

/-- The write-back a tier performs inside its `getOrLoad` when its own
lookup missed: `set(key, data, options)` with the configured tier
options appended, `data` being whatever the next-tier loader produced (possibly
`null`). -/
def tinsertBackfill {V O : Type} (t : Tier V O) (k : String) (ov : Option V) : Tier V O :=
  { t with store := ainsert t.store k (ov, t.opts) }

/-- `TieredCache.get(key)`: walk the tiers in order; every tier but the
last is consulted through its `getOrLoad` whose loader asks the next tier
(so a miss backfills the recursive answer with the tier options); the last
tier is a plain `get`. Returns (value, updated tiers, number of tiers
consulted). -/
def tieredGetAux {V O : Type} (k : String) :
    List (Tier V O) → Option V × List (Tier V O) × Nat
  | [] => (none, [], 0)
  | t :: ts =>
    if ts.isEmpty then (tlookup t k, t :: ts, 1)
    else
      match tlookup t k with
      | some v => (some v, t :: ts, 1)
      | none =>
        let r := tieredGetAux k ts
        (r.1, tinsertBackfill t k r.1 :: r.2.1, r.2.2 + 1)

/-- `TieredCache.get` at the whole tier list. -/
def tieredGet {V O : Type} (tiers : List (Tier V O)) (k : String) :
    Option V × List (Tier V O) × Nat :=
  tieredGetAux k tiers

/-- `TieredCache.set(key, value, options)`: write to every tier; the last
tier uses `options || tier.options`, the others their configured options. -/
def tieredSet {V O : Type} (k : String) (v : V) (callerOpts : Option O) :
    List (Tier V O) → List (Tier V O)
  | [] => []
  | t :: ts =>
    if ts.isEmpty then
      [{ t with store := ainsert t.store k (some v,
          match callerOpts with
          | some o => some o
          | none => t.opts) }]
    else
      { t with store := ainsert t.store k (some v, t.opts) } :: tieredSet k v callerOpts ts

/-- `BaseCache.getMany(keys)` of one tier: every requested key mapped to
its value or `null`. -/
def baseGetMany {V O : Type} (t : Tier V O) (keys : List String) :
    List (String × Option V) :=
  keys.map (fun k => (k, tlookup t k))

/-- `TieredCache.getMany(keys)`: per tier, query the remaining keys, keep
the hits, carry the misses to the next tier, stopping early when nothing
remains; keys no tier has are never added to the result. -/
def tieredGetManyAux {V O : Type} :
    List (Tier V O) → List String → List (String × V) → List (String × V)
  | [], _, acc => acc
  | t :: rest, remaining, acc =>
    if remaining = [] then acc
    else
      let items := baseGetMany t remaining
      let found := items.filterMap (fun p =>
        match p.2 with
        | some v => some (p.1, v)
        | none => none)
      let rem := items.filterMap (fun p =>
        match p.2 with
        | some _ => none
        | none => some p.1)
      tieredGetManyAux rest rem (acc ++ found)

/-- `TieredCache.getMany` at the whole tier list. -/
def tieredGetMany {V O : Type} (tiers : List (Tier V O)) (keys : List String) :
    List (String × V) :=
  tieredGetManyAux tiers keys []

/-- The value of the first tier holding a key (what a walk of the tiers
resolves to). -/
def firstFound {V O : Type} : List (Tier V O) → String → Option V
  | [], _ => none
  | t :: rest, k =>
    match tlookup t k with
    | some v => some v
    | none => firstFound rest k

theorem tlookup_tinsertBackfill_self {V O : Type} (t : Tier V O) (k : String) (ov : Option V) :
    tlookup (tinsertBackfill t k ov) k = ov := by
  simp [tlookup, tinsertBackfill]

/-- C4: `TieredCache.get` walks the tiers in order; when the key is absent
from every tier before the last and the last holds `v`, all tiers are
consulted, the value is returned, every earlier tier is backfilled with
the value under its own configured options (`tinsertBackfill` writes with
`t.opts`), the last tier is left unchanged, and a subsequent `get` of the
same key is answered by the first tier alone (one tier consulted, no
state change). -/
theorem C4_tiered_get_backfill {V O : Type} (ts1 : List (Tier V O)) (tl : Tier V O)
    (k : String) (v : V)
    (hmiss : ∀ t ∈ ts1, tlookup t k = none)
    (hhit : tlookup tl k = some v) :
    tieredGet (ts1 ++ [tl]) k =
      (some v, ts1.map (fun t => tinsertBackfill t k (some v)) ++ [tl], ts1.length + 1) ∧
    tieredGet (ts1.map (fun t => tinsertBackfill t k (some v)) ++ [tl]) k =
      (some v, ts1.map (fun t => tinsertBackfill t k (some v)) ++ [tl], 1) := by
  constructor
  · induction ts1 with
    | nil => simp [tieredGet, tieredGetAux, hhit]
    | cons t rest ih =>
      have h1 : tlookup t k = none := hmiss t (by simp)
      have ih2 := ih (fun t2 ht2 => hmiss t2 (by simp [ht2]))
      have hne : (rest ++ [tl]).isEmpty = false := by
        simp [List.isEmpty_iff]
      simp only [tieredGet] at ih2
      simp [tieredGet, tieredGetAux, hne, h1, ih2]
  · cases ts1 with
    | nil => simp [tieredGet, tieredGetAux, hhit]
    | cons t rest =>
      have hne : ((rest.map (fun t2 => tinsertBackfill t2 k (some v))) ++ [tl]).isEmpty
          = false := by
        simp [List.isEmpty_iff]
      simp [tieredGet, tieredGetAux, hne, tlookup_tinsertBackfill_self]

/-- C4 witness: tiers `[hot, cold]` with the key only in `cold`. -/
theorem C4_tiered_get_backfill_witness :
    tieredGet ([(⟨[], some 1⟩ : Tier Nat Nat)] ++ [⟨[("k", (some 10, none))], some 2⟩]) "k" =
      (some 10, [⟨[("k", (some 10, some 1))], some 1⟩, ⟨[("k", (some 10, none))], some 2⟩], 2) ∧
    tieredGet [(⟨[("k", (some 10, some 1))], some 1⟩ : Tier Nat Nat),
        ⟨[("k", (some 10, none))], some 2⟩] "k" =
      (some 10, [⟨[("k", (some 10, some 1))], some 1⟩, ⟨[("k", (some 10, none))], some 2⟩], 1) := by
  have h := C4_tiered_get_backfill [(⟨[], some 1⟩ : Tier Nat Nat)] ⟨[("k", (some 10, none))], some 2⟩
    "k" 10 (by intro t ht; simp at ht; simp [ht, tlookup, alookup]) (by simp [tlookup, alookup])
  refine ⟨by simpa [tinsertBackfill, ainsert] using h.1, by simpa [tinsertBackfill, ainsert] using h.2⟩

theorem alookup_found_of_tlookup_some {V O : Type} (t : Tier V O) (remaining : List String)
    (k : String) (v : V) (hk : k ∈ remaining) (hl : tlookup t k = some v) :
    alookup ((baseGetMany t remaining).filterMap (fun p =>
      match p.2 with
      | some w => some (p.1, w)
      | none => none)) k = some v := by
  induction remaining with
  | nil => simp at hk
  | cons a rest ih =>
    by_cases ha : a = k
    · subst ha
      simp [baseGetMany, hl, alookup]
    · have hk2 : k ∈ rest := by
        rcases List.mem_cons.mp hk with h | h
        · exact absurd h.symm ha
        · exact h
      cases h2 : tlookup t a with
      | some w => simpa [baseGetMany, h2, alookup, ha] using ih hk2
      | none => simpa [baseGetMany, h2] using ih hk2

theorem alookup_found_of_tlookup_none {V O : Type} (t : Tier V O) (remaining : List String)
    (k : String) (hl : tlookup t k = none) :
    alookup ((baseGetMany t remaining).filterMap (fun p =>
      match p.2 with
      | some w => some (p.1, w)
      | none => none)) k = none := by
  induction remaining with
  | nil => simp [baseGetMany, alookup]
  | cons a rest ih =>
    have hstep : baseGetMany t (a :: rest) = (a, tlookup t a) :: baseGetMany t rest := rfl
    rw [hstep, List.filterMap_cons]
    by_cases ha : a = k
    · subst ha
      simp [hl, ih]
    · cases h2 : tlookup t a with
      | some w => simp [h2, alookup, ha, ih]
      | none => simp [h2, ih]

theorem mem_rem_of_tlookup_none {V O : Type} (t : Tier V O) (remaining : List String)
    (k : String) (hk : k ∈ remaining) (hl : tlookup t k = none) :
    k ∈ (baseGetMany t remaining).filterMap (fun p =>
      match p.2 with
      | some _ => none
      | none => some p.1) := by
  induction remaining with
  | nil => simp at hk
  | cons a rest ih =>
    by_cases ha : a = k
    · subst ha
      simp [baseGetMany, hl]
    · have hk2 : k ∈ rest := by
        rcases List.mem_cons.mp hk with h | h
        · exact absurd h.symm ha
        · exact h
      cases h2 : tlookup t a with
      | some w => simpa [baseGetMany, h2] using ih hk2
      | none => simpa [baseGetMany, h2] using Or.inr (ih hk2)

theorem tieredGetManyAux_preserves {V O : Type} (tiers : List (Tier V O)) :
    ∀ (remaining : List String) (acc : List (String × V)) (k : String) (v : V),
    alookup acc k = some v → alookup (tieredGetManyAux tiers remaining acc) k = some v := by
  induction tiers with
  | nil => intro remaining acc k v h; simpa [tieredGetManyAux] using h
  | cons t rest ih =>
    intro remaining acc k v h
    by_cases hrem : remaining = []
    · simp [tieredGetManyAux, hrem, h]
    · simp only [tieredGetManyAux, hrem, if_false]
      exact ih _ _ _ _ (alookup_append_left _ h)

theorem tieredGetManyAux_lookup {V O : Type} (tiers : List (Tier V O)) :
    ∀ (remaining : List String) (acc : List (String × V)) (k : String),
    k ∈ remaining → alookup acc k = none →
    alookup (tieredGetManyAux tiers remaining acc) k = firstFound tiers k := by
  induction tiers with
  | nil =>
    intro remaining acc k _ hacc
    simpa [tieredGetManyAux, firstFound] using hacc
  | cons t rest ih =>
    intro remaining acc k hk hacc
    have hrem : remaining ≠ [] := fun h => by simp [h] at hk
    simp only [tieredGetManyAux, hrem, if_false]
    cases h2 : tlookup t k with
    | some v =>
      have hfound := alookup_found_of_tlookup_some t remaining k v hk h2
      have happ : alookup (acc ++ (baseGetMany t remaining).filterMap (fun p =>
          match p.2 with
          | some w => some (p.1, w)
          | none => none)) k = some v := by
        rw [alookup_append_right _ hacc]
        exact hfound
      rw [tieredGetManyAux_preserves rest _ _ k v happ]
      simp [firstFound, h2]
    | none =>
      have hfound := alookup_found_of_tlookup_none t remaining k h2
      have happ : alookup (acc ++ (baseGetMany t remaining).filterMap (fun p =>
          match p.2 with
          | some w => some (p.1, w)
          | none => none)) k = none := by
        rw [alookup_append_right _ hacc]
        exact hfound
      rw [ih _ _ k (mem_rem_of_tlookup_none t remaining k hk h2) happ]
      simp [firstFound, h2]

theorem firstFound_eq_none {V O : Type} (tiers : List (Tier V O)) (k : String)
    (h : ∀ t ∈ tiers, tlookup t k = none) : firstFound tiers k = none := by
  induction tiers with
  | nil => rfl
  | cons t rest ih =>
    have h1 : tlookup t k = none := h t (by simp)
    simp [firstFound, h1, ih (fun t2 ht2 => h t2 (by simp [ht2]))]

/-- C10: a requested key found in no tier is omitted from the result of
`TieredCache.getMany` entirely (no entry with that key exists, so no
key-to-null mapping); a key found in some tier is mapped to the value of
the first tier holding it; the base-dispatch `getMany`, by contrast, maps
every requested key to its value or null. -/
theorem C10_tiered_getMany_omits_missing {V O : Type} (tiers : List (Tier V O))
    (keys : List String) (k : String) (t : Tier V O) (hk : k ∈ keys) :
    ((∀ t2 ∈ tiers, tlookup t2 k = none) →
      alookup (tieredGetMany tiers keys) k = none ∧
      ∀ p ∈ tieredGetMany tiers keys, p.1 ≠ k) ∧
    (∀ v, firstFound tiers k = some v → alookup (tieredGetMany tiers keys) k = some v) ∧
    alookup (baseGetMany t keys) k = some (tlookup t k) := by
  have hmain : alookup (tieredGetMany tiers keys) k = firstFound tiers k :=
    tieredGetManyAux_lookup tiers keys [] k hk rfl
  refine ⟨fun hall => ?_, fun v hv => by rw [hmain, hv], ?_⟩
  · have hnone : alookup (tieredGetMany tiers keys) k = none := by
      rw [hmain]
      exact firstFound_eq_none tiers k hall
    exact ⟨hnone, (alookup_eq_none_iff _ _).mp hnone⟩
  · exact alookup_map_keys keys (fun k2 => tlookup t k2) k hk

/-- C10 witness: key `a` in no tier is omitted; key `b` (held by the
second tier) is mapped to its value; the base dispatch maps the missing
`a` to null. -/
theorem C10_tiered_getMany_omits_missing_witness :
    alookup (tieredGetMany [(⟨[], none⟩ : Tier Nat Nat), ⟨[("b", (some 5, none))], none⟩]
      ["a", "b"]) "a" = none ∧
    alookup (tieredGetMany [(⟨[], none⟩ : Tier Nat Nat), ⟨[("b", (some 5, none))], none⟩]
      ["a", "b"]) "b" = some 5 ∧
    alookup (baseGetMany (⟨[], none⟩ : Tier Nat Nat) ["a", "b"]) "a" = some none := by
  have ha := C10_tiered_getMany_omits_missing
    [(⟨[], none⟩ : Tier Nat Nat), ⟨[("b", (some 5, none))], none⟩] ["a", "b"] "a"
    ⟨[], none⟩ (by simp)
  have hb := C10_tiered_getMany_omits_missing
    [(⟨[], none⟩ : Tier Nat Nat), ⟨[("b", (some 5, none))], none⟩] ["a", "b"] "b"
    ⟨[], none⟩ (by simp)
  refine ⟨(ha.1 ?_).1, hb.2.1 5 (by simp [firstFound, tlookup, alookup]), ?_⟩
  · intro t2 ht2
    rcases List.mem_cons.mp ht2 with h | h
    · simp [h, tlookup, alookup]
    · simp at h
      simp [h, tlookup, alookup]
  · have h3 := ha.2.2
    have h4 : tlookup (⟨[], none⟩ : Tier Nat Nat) "a" = none := rfl
    rw [h4] at h3
    exact h3

/-! ## Round-trip law (set then get, per layer) -/

theorem alookup_mem {α : Type} {l : List (String × α)} {k : String} {v : α}
    (h : alookup l k = some v) : (k, v) ∈ l := by
  induction l with
  | nil => simp [alookup] at h
  | cons hd t ih =>
    obtain ⟨a, b⟩ := hd
    by_cases ha : a = k
    · subst ha
      simp [alookup] at h
      simp [h]
    · simp only [alookup, ha, if_false] at h
      simp [ih h]

theorem refreshTags_not_expired {V : Type} (s : TaggingState V) (tags : List String)
    (now : Nat) (hpos : 0 < now) (hmark : ∀ p ∈ s.markers, p.2 ≤ now) :
    isItemExpired tags now (refreshTags s.markers tags now) = false := by
  by_cases hemp : tags.isEmpty
  · simp [isItemExpired, hemp]
  · simp only [isItemExpired, hemp, Bool.false_eq_true, if_false]
    rw [List.any_eq_false]
    intro tg htg
    have hlook : alookup (refreshTags s.markers tags now) tg = some (refreshVal s.markers now tg) := by
      simp [refreshTags, hemp, alookup_foldl_ainsert tags s.markers (refreshVal s.markers now), htg]
    simp only [expiredTag, hlook]
    cases hm : alookup s.markers tg with
    | none =>
      simp [refreshVal, hm]
      omega
    | some ts =>
      have hle : ts ≤ now := hmark (tg, ts) (alookup_mem hm)
      by_cases hts : ts = 0
      · simp [refreshVal, hm, hts]
        omega
      · simp [refreshVal, hm, hts]
        omega

theorem tieredSet_cons_nonempty {V O : Type} (k : String) (v : V) (copts : Option O)
    (t : Tier V O) (ts : List (Tier V O)) :
    (tieredSet k v copts (t :: ts)).isEmpty = false := by
  by_cases h : ts.isEmpty <;> simp [tieredSet, h]

/-- C6: for each of the four layers, `set(k, v, opts)` immediately followed
by `get(k)` with nothing interleaved returns exactly `v`, every envelope
unwrapped: the Coalescing write-through, the SWR envelope `{ data, expiresAt }`,
the Tiered write-to-all-tiers (any tier count, any caller options), and
the Tagging envelope `{ v, d, t }` (any tag list, provided the wall clock
is positive and no marker carries a future timestamp). -/
theorem C6_set_get_roundtrip {V O : Type} (k : String) (v : V)
    (sC : CoalState V) (sS : SWRState V) (ttlOpt : Option Nat) (dT sT now : Nat)
    (copts : Option O) (t : Tier V O) (ts : List (Tier V O))
    (sG : TaggingState V) (tags : List String) (nowT : Nat)
    (hpos : 0 < nowT) (hmark : ∀ p ∈ sG.markers, p.2 ≤ nowT) :
    (coalGetDone k (coalSetDone k v sC)).1 = some v ∧
    swrGet k (swrSet k v ttlOpt dT sT now sS) = some v ∧
    (tieredGet (tieredSet k v copts (t :: ts)) k).1 = some v ∧
    (taggingGet (taggingSet sG k v tags nowT) k).1 = some v := by
  refine ⟨by simp [coalGetDone, coalSetDone], by simp [swrGet, swrSet], ?_, ?_⟩
  · by_cases hts : ts.isEmpty
    · simp [tieredGet, tieredSet, hts, tieredGetAux, tlookup]
    · cases ts with
      | nil => simp at hts
      | cons t2 ts2 =>
        have hne := tieredSet_cons_nonempty k v copts t2 ts2
        simp [tieredGet, tieredSet, hts, tieredGetAux, hne, tlookup]
  · have hexp := refreshTags_not_expired sG tags nowT hpos hmark
    simp [taggingGet, taggingSet, hexp]

/-- C6 witness: concrete round trips through all four layers at once. -/
theorem C6_set_get_roundtrip_witness :
    (coalGetDone "k" (coalSetDone "k" 3 (⟨none, []⟩ : CoalState Nat))).1 = some 3 ∧
    swrGet "k" (swrSet "k" 3 (some 60) 240 60 5000 (⟨[], []⟩ : SWRState Nat)) = some 3 ∧
    (tieredGet (tieredSet "k" 3 (some 7) [(⟨[], none⟩ : Tier Nat Nat), ⟨[], some 2⟩]) "k").1
      = some 3 ∧
    (taggingGet (taggingSet (⟨[], [("t", 100)]⟩ : TaggingState Nat) "k" 3 ["t"] 500) "k").1
      = some 3 := by
  exact C6_set_get_roundtrip "k" 3 ⟨none, []⟩ ⟨[], []⟩ (some 60) 240 60 5000 (some 7)
    ⟨[], none⟩ [⟨[], some 2⟩] ⟨[], [("t", 100)]⟩ ["t"] 500 (by decide)
    (by intro p hp; simp at hp; simp [hp])

end Cachimbo
